import Mathlib

/-
Verification of the npmdata repository against its natural-language
specification.  The source under scrutiny is src/lib/src/utils.ts (glob and
content filtering, semver validation, JSON file helpers) together with the
type declarations and tests of the consumer module.  The consumer module
itself (extract and check) is not among the sources, so the synchronization
engine is modelled from the specification, as flagged in the doc comments.

Strings are embedded as Lean String values and manipulated through their
underlying character lists, so that every definition is executable and
concrete runs can be checked by the kernel.  JavaScript RegExp values are
embedded as their test functions (String to Bool), minimatch is modelled by
an explicit glob matcher covering the feature subset the repository uses
(literal characters, star, question mark, globstar segments, dotfile
handling and the matchBase option), and JSON.parse / JSON.stringify are
taken as parameters at the points where the source calls them.
-/

deriving instance DecidableEq for Except

namespace Npmdata

/-! ## Character-list string helpers (path.basename, path.resolve, String.prototype ops) -/

/-- Split a character list at every occurrence of the separator, like
String.prototype.split with a single-character separator: n separators
produce n + 1 (possibly empty) fields. -/
def chSplit (sep : Char) : List Char → List (List Char)
  | [] => [[]]
  | c :: cs =>
    let r := chSplit sep cs
    if c == sep then [] :: r
    else
      match r with
      | [] => [[c]]
      | h :: t => (c :: h) :: t

/-- Join segments with a slash, the inverse of splitting on a slash. -/
def joinSegs : List (List Char) → List Char
  | [] => []
  | [s] => s
  | s :: t => s ++ '/' :: joinSegs t

/-- Last segment of a segment list, or the empty segment when there is none. -/
def lastSeg : List (List Char) → List Char
  | [] => []
  | [s] => s
  | _ :: s :: t => lastSeg (s :: t)

/-- Test whether the first string starts with the second, like
String.prototype.startsWith. -/
def strStarts (s pre : List Char) : Bool := pre.isPrefixOf s

/-- Drop the first character, like String.prototype.slice(1). -/
def strDrop1 (s : String) : String := ⟨s.data.drop 1⟩

/-- Model of path.basename: the part after the last slash. -/
def baseNameOf (s : String) : String := ⟨lastSeg (chSplit '/' s.data)⟩

/-- Model of path.dirname: the part before the last slash, or a dot when the
path has no slash. -/
def dirnameOf (p : String) : String :=
  match (chSplit '/' p.data).dropLast with
  | [] => "."
  | ps => ⟨joinSegs ps⟩

/-- Model of path.resolve against an explicit working directory: an absolute
path is returned unchanged, a relative one is appended to the working
directory.  Segment normalization of dots is not modelled; the inputs used
in the development are already clean. -/
def pathResolve (cwd filePath : String) : String :=
  if strStarts filePath.data ['/'] then filePath else cwd ++ "/" ++ filePath

/-- Model of path.join for one directory and one entry name. -/
def joinPath (dir name : String) : String := dir ++ "/" ++ name

/-- True when the character list contains two adjacent stars, modelling
String.prototype.includes applied to a double star. -/
def hasStarStar : List Char → Bool
  | '*' :: '*' :: _ => true
  | _ :: t => hasStarStar t
  | [] => false

/-! ## Model of the external minimatch library

The repository treats glob matching as an external collaborator (the
minimatch npm package).  The model below implements the documented
minimatch semantics for the feature subset the repository exercises:
star and question mark inside a segment, globstar segments, the rule that
star and globstar never match a segment starting with a dot, and the
matchBase option, which matches a slash-free pattern against the basename
of the path. -/

/-- Glob match of one pattern segment against one path segment, stars and
question marks only. -/
def globChars : List Char → List Char → Bool
  | [], s => s.isEmpty
  | '*' :: ps, s => (s.tails).any (fun t => globChars ps t)
  | '?' :: ps, s =>
    match s with
    | [] => false
    | _ :: t => globChars ps t
  | p :: ps, s =>
    match s with
    | [] => false
    | c :: t => p == c && globChars ps t

/-- True when a segment starts with a dot. -/
def startsDotSeg : List Char → Bool
  | '.' :: _ => true
  | _ => false

/-- One pattern segment against one path segment, with the minimatch rule
that a segment starting with a dot is only matched by a pattern that also
starts with a literal dot. -/
def segMatch (p s : List Char) : Bool :=
  if startsDotSeg s && !(startsDotSeg p) then false else globChars p s

/-- Suffixes of a segment list reachable by consuming leading segments that
do not start with a dot: the states a globstar may reach. -/
def gsTails : List (List Char) → List (List (List Char))
  | [] => [[]]
  | s :: ss => (s :: ss) :: (if startsDotSeg s then [] else gsTails ss)

/-- Match a list of pattern segments against a list of path segments, where
a double-star pattern segment may swallow any number of non-dot path
segments. -/
def segsMatch : List (List Char) → List (List Char) → Bool
  | [], ss => ss.isEmpty
  | p :: ps, ss =>
    if p == ['*', '*'] then (gsTails ss).any (fun t => segsMatch ps t)
    else
      match ss with
      | [] => false
      | s :: st => segMatch p s && segsMatch ps st

/-- Model of minimatch(path, pattern, options) where options is either empty
or matchBase.  With matchBase set and a slash-free pattern, the pattern is
matched against the basename of the path. -/
def minimatch (matchBase : Bool) (pathStr pattern : String) : Bool :=
  let patSegs := chSplit '/' pattern.data
  let pathSegs := chSplit '/' pathStr.data
  if matchBase && patSegs.length == 1 then segsMatch patSegs [lastSeg pathSegs]
  else segsMatch patSegs pathSegs

/-! ## src/lib/src/utils.ts: filename and content filtering -/

/-- Embedding of matchesPattern (utils.ts lines 47 to 54): patterns holding
a double star are matched with minimatch against the absolute path with the
matchBase option, other patterns with minimatch against the file name. -/
def matchesPattern (filePath fileName absolutePath pattern : String) : Bool :=
  if hasStarStar pattern.data then minimatch true absolutePath pattern
  else minimatch false fileName pattern

/-- Embedding of matchesFilenamePattern (utils.ts lines 18 to 45).  The cwd
argument makes the path.resolve call explicit.  The patterns argument is
none for an absent (undefined) argument; the single-string overload of the
source is the singleton list.  Note that an empty list is truthy in
JavaScript, so it flows past the initial absent check exactly as in the
source. -/
def matchesFilenamePattern (cwd filePath : String) (patterns : Option (List String)) : Bool :=
  match patterns with
  | none => true
  | some patternList =>
    let fileName := baseNameOf filePath
    let absolutePath := pathResolve cwd filePath
    let includePatterns := patternList.filter (fun p => !(strStarts p.data ['!']))
    let excludePatterns := (patternList.filter (fun p => strStarts p.data ['!'])).map strDrop1
    if excludePatterns.any (fun pat => matchesPattern filePath fileName absolutePath pat) then
      false
    else if includePatterns.length > 0 then
      includePatterns.any (fun pat => matchesPattern filePath fileName absolutePath pat)
    else true

/-- Embedding of matchesContentRegex (utils.ts lines 59 to 72).  The file
read is modelled by an Option String: none when fs.readFileSync throws, in
which case the source catches the error, warns and returns false.  A RegExp
is embedded as its test function. -/
def matchesContentRegex (content : Option String) (patterns : Option (List (String → Bool))) : Bool :=
  match patterns with
  | none => true
  | some patternList =>
    match content with
    | some c => patternList.any (fun pattern => pattern c)
    | none => false

/-- Default filename patterns from src/lib/src/types.ts lines 5 to 11. -/
def DEFAULT_FILENAME_PATTERNS : List String :=
  ["**", "!package.json", "!bin/**", "!README.md", "!node_modules/**"]

/-- A directory listing as seen by the recursive walk of findMatchingFiles:
a sequence of entries in readdir order, each entry a file (with its read
result, none when unreadable) or a subdirectory with its own listing. -/
inductive FTree where
  | nilE : FTree
  | fileE (name : String) (content : Option String) (rest : FTree) : FTree
  | dirE (name : String) (children : FTree) (rest : FTree) : FTree
deriving DecidableEq

/-- Embedding of the inner walkDir of findMatchingFiles (utils.ts lines 84
to 103): files pass when they satisfy both filters, subdirectories are
recursed into unless their name starts with a dot. -/
def walkDir (cwd : String) (filenamePattern : Option (List String))
    (contentRegex : Option (List (String → Bool))) : String → FTree → List String
  | _, .nilE => []
  | currentDir, .fileE name content rest =>
    (if matchesFilenamePattern cwd (joinPath currentDir name) filenamePattern &&
        matchesContentRegex content contentRegex
     then [joinPath currentDir name] else [])
      ++ walkDir cwd filenamePattern contentRegex currentDir rest
  | currentDir, .dirE name children rest =>
    (if !(strStarts name.data ['.']) then
        walkDir cwd filenamePattern contentRegex (joinPath currentDir name) children
     else [])
      ++ walkDir cwd filenamePattern contentRegex currentDir rest

/-- Embedding of findMatchingFiles (utils.ts lines 77 to 107) over a
directory tree value. -/
def findMatchingFiles (cwd dir : String) (filenamePattern : Option (List String))
    (contentRegex : Option (List (String → Bool))) (tree : FTree) : List String :=
  walkDir cwd filenamePattern contentRegex dir tree

/-- All files of a directory tree with their read results, hidden
directories included: the domain the specification quantifies over when it
speaks of every file of the walk. -/
def allFiles : String → FTree → List (String × Option String)
  | _, .nilE => []
  | cur, .fileE name c rest => (joinPath cur name, c) :: allFiles cur rest
  | cur, .dirE name children rest =>
    allFiles (joinPath cur name) children ++ allFiles cur rest

/-- Files of a directory tree reachable without descending into a directory
whose name starts with a dot: exactly the files the source walk visits. -/
def visibleFiles : String → FTree → List (String × Option String)
  | _, .nilE => []
  | cur, .fileE name c rest => (joinPath cur name, c) :: visibleFiles cur rest
  | cur, .dirE name children rest =>
    (if !(strStarts name.data ['.']) then visibleFiles (joinPath cur name) children else [])
      ++ visibleFiles cur rest

/-! ## src/lib/src/utils.ts: simplified semver validation -/

/-- A JavaScript number as it flows through validateSemverMatch: a parsed
natural number, NaN from a failed parseInt, or undefined from destructuring
a missing array element. -/
inductive JNum where
  | undefJs : JNum
  | nan : JNum
  | num (n : Nat) : JNum
deriving DecidableEq

/-- JavaScript strict equality on such values: undefined equals undefined,
NaN equals nothing, numbers compare numerically. -/
def jsEq : JNum → JNum → Bool
  | .num a, .num b => a == b
  | .undefJs, .undefJs => true
  | _, _ => false

/-- JavaScript greater-than: false whenever either side is NaN or
undefined. -/
def jsGt : JNum → JNum → Bool
  | .num a, .num b => b < a
  | _, _ => false

/-- JavaScript greater-or-equal: false whenever either side is NaN or
undefined. -/
def jsGe : JNum → JNum → Bool
  | .num a, .num b => b ≤ a
  | _, _ => false

/-- JavaScript less-than: false whenever either side is NaN or undefined. -/
def jsLt : JNum → JNum → Bool
  | .num a, .num b => a < b
  | _, _ => false

/-- JavaScript less-or-equal: false whenever either side is NaN or
undefined. -/
def jsLe : JNum → JNum → Bool
  | .num a, .num b => a ≤ b
  | _, _ => false

/-- Decimal digit test on a character. -/
def isDigitCh (c : Char) : Bool := '0'.toNat ≤ c.toNat && c.toNat ≤ '9'.toNat

/-- Numeric value of a digit list. -/
def digitsToNat : List Char → Nat → Nat
  | [], acc => acc
  | c :: cs, acc => digitsToNat cs (acc * 10 + (c.toNat - '0'.toNat))

/-- Model of Number.parseInt(s, 10) for the strings reaching it here: the
maximal run of leading decimal digits, NaN when there is none.  Leading
whitespace and sign handling of parseInt are not modelled. -/
def jsParseInt (s : String) : JNum :=
  let ds := s.data.takeWhile isDigitCh
  if ds.isEmpty then .nan else .num (digitsToNat ds 0)

/-- Element of a JNum list at an index, undefined past the end, modelling
array destructuring. -/
def idxOr (l : List JNum) (i : Nat) : JNum := l.getD i .undefJs

/-- The (major, minor, patch) destructuring of the installed version in
validateSemverMatch line 187: split on dots, parseInt each part, missing
parts undefined. -/
def parsedTriple (installedVersion : String) : JNum × JNum × JNum :=
  let parts := (chSplit '.' installedVersion.data).map (fun p => jsParseInt ⟨p⟩)
  (idxOr parts 0, idxOr parts 1, idxOr parts 2)

/-- parseInt with the OR-zero fallback of line 194: NaN collapses to 0. -/
def jsParseIntOr0 (s : String) : Nat :=
  match jsParseInt s with
  | .num n => n
  | _ => 0

/-- The (cMajor, cMinor, cPatch) destructuring of the constraint version in
line 194: split on dots, parseInt-or-zero each part, missing parts
undefined. -/
def constraintTriple (version : String) : JNum × JNum × JNum :=
  let parts := (chSplit '.' version.data).map (fun p => JNum.num (jsParseIntOr0 ⟨p⟩))
  (idxOr parts 0, idxOr parts 1, idxOr parts 2)

/-- Operator characters of the constraint regex class. -/
def isOpChar (c : Char) : Bool :=
  c == '<' || c == '=' || c == '>' || c == '^' || c == '~'

/-- Version characters of the constraint regex: digits and dots. -/
def isVerChar (c : Char) : Bool := isDigitCh c || c == '.'

/-- Word characters, dots and hyphens, the class of the prerelease and
build groups of the constraint regex. -/
def isPreChar (c : Char) : Bool :=
  ('a'.toNat ≤ c.toNat && c.toNat ≤ 'z'.toNat) ||
  ('A'.toNat ≤ c.toNat && c.toNat ≤ 'Z'.toNat) ||
  isDigitCh c || c == '_' || c == '.' || c == '-'

/-- The optional build part of the constraint regex after a plus sign. -/
def matchBuildBody (rest : List Char) : Bool :=
  let b := rest.takeWhile isPreChar
  !b.isEmpty && (rest.drop b.length).isEmpty

/-- What may follow the prerelease group: end of string or a build part. -/
def matchBuild : List Char → Bool
  | [] => true
  | '+' :: rest => matchBuildBody rest
  | _ => false

/-- What may follow the version digits in the constraint regex: end of
string, a hyphen-led prerelease group, or a plus-led build group. -/
def matchTail : List Char → Bool
  | [] => true
  | '-' :: rest =>
    let pre := rest.takeWhile isPreChar
    if pre.isEmpty then false else matchBuild (rest.drop pre.length)
  | '+' :: rest => matchBuildBody rest
  | _ => false

/-- Model of matching the constraint against the regex of utils.ts line
188 and extracting the operator and version groups. -/
def parseConstraint (c : String) : Option (String × String) :=
  let cs := c.data
  let opCs := cs.takeWhile isOpChar
  let rest := cs.drop opCs.length
  let verCs := rest.takeWhile isVerChar
  if verCs.isEmpty then none
  else if matchTail (rest.drop verCs.length) then some (⟨opCs⟩, ⟨verCs⟩)
  else none

/-- The switch statement of validateSemverMatch (utils.ts lines 196 to
230), taking the already-destructured triples.  Only the exact-match arm
(empty operator or a single equals sign) consults the version strings
themselves. -/
def semverOpResult (op : String) (t ct : JNum × JNum × JNum)
    (installedVersion version : String) : Bool :=
  let major := t.1
  let minor := t.2.1
  let patch := t.2.2
  let cMajor := ct.1
  let cMinor := ct.2.1
  let cPatch := ct.2.2
  if op.data == ['^'] then
    jsEq major cMajor && (jsGt minor cMinor || (jsEq minor cMinor && jsGe patch cPatch))
  else if op.data == ['~'] then
    jsEq major cMajor && jsEq minor cMinor && jsGe patch cPatch
  else if op.data == ['>', '='] then
    jsGt major cMajor || (jsEq major cMajor && jsGt minor cMinor) ||
      (jsEq major cMajor && jsEq minor cMinor && jsGe patch cPatch)
  else if op.data == ['>'] then
    jsGt major cMajor || (jsEq major cMajor && jsGt minor cMinor) ||
      (jsEq major cMajor && jsEq minor cMinor && jsGt patch cPatch)
  else if op.data == ['<', '='] then
    jsLt major cMajor || (jsEq major cMajor && jsLt minor cMinor) ||
      (jsEq major cMajor && jsEq minor cMinor && jsLe patch cPatch)
  else if op.data == ['<'] then
    jsLt major cMajor || (jsEq major cMajor && jsLt minor cMinor) ||
      (jsEq major cMajor && jsEq minor cMinor && jsLt patch cPatch)
  else if op.data == ['='] || op.data == [] then
    installedVersion.data == version.data
  else false

/-- Embedding of validateSemverMatch (utils.ts lines 180 to 231).  The
constraint is none when absent; the empty string is falsy in JavaScript and
also yields true.  Line 185 returns true on literal string equality before
any parsing. -/
def validateSemverMatch (installedVersion : String) (versionConstraint : Option String) : Bool :=
  match versionConstraint with
  | none => true
  | some vc =>
    if vc.data.isEmpty then true
    else if installedVersion.data == vc.data then true
    else
      match parseConstraint vc with
      | none => false
      | some (op, version) =>
        semverOpResult op (parsedTriple installedVersion) (constraintTriple version)
          installedVersion version

/-! ## src/lib/src/utils.ts: JSON file helpers over a small filesystem model -/

/-- Lookup in an association list keyed by strings. -/
def lookupAssoc {β : Type} (k : String) : List (String × β) → Option β
  | [] => none
  | (k1, v1) :: rest => if k1 == k then some v1 else lookupAssoc k rest

/-- Overwrite-or-append in an association list keyed by strings, modelling
a file write. -/
def setAssoc {β : Type} (k : String) (v : β) : List (String × β) → List (String × β)
  | [] => [(k, v)]
  | (k1, v1) :: rest => if k1 == k then (k, v) :: rest else (k1, v1) :: setAssoc k v rest

/-- A flat filesystem picture: the set of directories known to exist and
the files with their text contents.  Text stands for the UTF-8 encoded
bytes; the byte level itself is below the abstraction. -/
structure SimpleFS where
  dirs : List String
  files : List (String × String)
deriving DecidableEq

/-- Embedding of ensureDir (utils.ts lines 112 to 116): create the
directory when it does not exist yet. -/
def ensureDir (dir : String) (fs : SimpleFS) : SimpleFS :=
  if fs.dirs.contains dir then fs else { fs with dirs := dir :: fs.dirs }

/-- Embedding of readJsonFile (utils.ts lines 247 to 254).  The disk read
is an Option String, JSON.parse is the parseJson parameter, and the catch
branch rethrows a message naming the offending file (the appended original
error text is not modelled). -/
def readJsonFile {α : Type} (parseJson : String → Option α) (filePath : String)
    (diskContent : Option String) : Except String α :=
  match diskContent with
  | none => .error ("Failed to read JSON file " ++ filePath)
  | some content =>
    match parseJson content with
    | none => .error ("Failed to read JSON file " ++ filePath)
    | some v => .ok v

/-- Embedding of writeJsonFile (utils.ts lines 259 to 262): ensure the
parent directory, then write the serialized data with a trailing newline.
JSON.stringify(data, null, 2) is the stringify parameter. -/
def writeJsonFile {α : Type} (stringify : α → String) (filePath : String) (data : α)
    (fs : SimpleFS) : SimpleFS :=
  let fs1 := ensureDir (dirnameOf filePath) fs
  { fs1 with files := setAssoc filePath (stringify data ++ "\n") fs1.files }

/-! ## Marker records (src/lib/src/types.ts) and their serialization -/

/-- ManagedFileMetadata from src/lib/src/types.ts lines 99 to 119. -/
structure ManagedFileMetadata where
  path : String
  packageName : String
  packageVersion : String
  force : Bool
deriving DecidableEq

/-- FolderPublisherMarker: the marker file payload, a managedFiles list. -/
structure FolderPublisherMarker where
  managedFiles : List ManagedFileMetadata
deriving DecidableEq

/-- Quote a string as a JSON string literal.  Escaping is not modelled;
the paths and package names handled here contain no characters needing
it. -/
def jsonQuote (s : String) : String := "\"" ++ s ++ "\""

/-- Render a JavaScript boolean. -/
def jsonBool : Bool → String
  | true => "true"
  | false => "false"

/-- Modelled from the spec: one managedFiles entry as JSON.stringify with
indent 2 renders it at depth two, field order path, packageName,
packageVersion, force as declared in the source type. -/
def stringifyEntry (e : ManagedFileMetadata) : String :=
  "    \x7b\n      \"path\": " ++ jsonQuote e.path ++ ",\n      \"packageName\": " ++
    jsonQuote e.packageName ++ ",\n      \"packageVersion\": " ++
    jsonQuote e.packageVersion ++ ",\n      \"force\": " ++ jsonBool e.force ++ "\n    \x7d"

/-- Comma-and-newline separated rendering of the entry list. -/
def stringifyEntries : List ManagedFileMetadata → String
  | [] => ""
  | [e] => stringifyEntry e
  | e :: f :: t => stringifyEntry e ++ ",\n" ++ stringifyEntries (f :: t)

/-- Modelled from the spec: JSON.stringify(marker, null, 2) for the marker
record, a pretty-printed object with the single managedFiles field. -/
def stringifyMarker (m : FolderPublisherMarker) : String :=
  match m.managedFiles with
  | [] => "\x7b\n  \"managedFiles\": []\n\x7d"
  | l => "\x7b\n  \"managedFiles\": [\n" ++ stringifyEntries l ++ "\n  ]\n\x7d"

/-- Name of the marker file inside its directory. -/
def markerFileName : String := ".folder-publisher"

/-- Full path of the marker file of a directory. -/
def markerPath (dir : String) : String := joinPath dir markerFileName

/-- Modelled from the spec: MarkerStore.load reads the marker of a
directory, returns an empty record when the file is absent, and otherwise
parses it through readJsonFile, which fails naming the file when the
content is not valid structured data.  The consumer module holding this
logic is not among the sources. -/
def loadMarkerRecord (parseJson : String → Option FolderPublisherMarker) (dir : String)
    (diskContent : Option String) : Except String FolderPublisherMarker :=
  match diskContent with
  | none => .ok ⟨[]⟩
  | some content => readJsonFile parseJson (markerPath dir) (some content)

/-- Modelled from the spec: MarkerStore.save serializes the record and
writes it through writeJsonFile into the directory it describes. -/
def saveMarkerRecord (dir : String) (m : FolderPublisherMarker) (fs : SimpleFS) : SimpleFS :=
  writeJsonFile stringifyMarker (markerPath dir) m fs

/-! ## The synchronization engine, modelled from the specification

The consumer module (extract and check) is not among the sources; only its
type declarations and its tests are.  The definitions below are modelled
from sections 4.3 and 4.4 of the specification: the per-candidate
classification into add, update, skip or conflict, the fail-fast conflict
policy, the marker upsert, the orphan cleanup, and the check
classification into missing, modified or extra.  Content hashes are
modelled by the contents themselves (the hash is a stable digest; collisions
are below the abstraction).  Read-only chmod calls and gitignore
maintenance mutate no state the claims mention and are left out. -/

/-- Relative directory of a candidate path inside the output directory;
the empty string denotes the output directory itself. -/
def dirOf (p : String) : String := ⟨joinSegs (chSplit '/' p.data).dropLast⟩

/-- Base name of a candidate path. -/
def baseOf (p : String) : String := ⟨lastSeg (chSplit '/' p.data)⟩

/-- Rejoin a marker directory and an entry name into an output-relative
path. -/
def joinRel (dir base : String) : String :=
  if dir.data == [] then base else dir ++ "/" ++ base

/-- A candidate path that splitting and rejoining reproduces: every path a
filesystem walk yields is of this shape (no leading, trailing or doubled
slashes). -/
def goodPath (p : String) : Prop := joinRel (dirOf p) (baseOf p) = p

instance (p : String) : Decidable (goodPath p) := by
  unfold goodPath; infer_instance

/-- The state of the output directory: extracted files by relative path,
and per-directory marker entry lists. -/
structure OutState where
  files : List (String × String)
  markers : List (String × List ManagedFileMetadata)
deriving DecidableEq

/-- Modelled from the spec: MarkerStore.load inside the engine, an empty
entry list when the directory has no marker yet. -/
def loadMarkerAt (st : OutState) (dir : String) : List ManagedFileMetadata :=
  (lookupAssoc dir st.markers).getD []

/-- Modelled from the spec: an entry list manages a path for a package when
it holds an entry with that path and package name. -/
def isManagedBy (entries : List ManagedFileMetadata) (base pkg : String) : Bool :=
  entries.any (fun e => e.path == base && e.packageName == pkg)

/-- Owning package of an entry, when any entry for the path exists. -/
def findOwner (entries : List ManagedFileMetadata) (base : String) : Option String :=
  (entries.find? (fun e => e.path == base)).map (fun e => e.packageName)

/-- Modelled from the spec: MarkerStore.upsert replaces any existing entry
with the same path and package name and otherwise appends, keeping the
order of unrelated entries. -/
def upsertEntry (entry : ManagedFileMetadata) (entries : List ManagedFileMetadata) :
    List ManagedFileMetadata :=
  if entries.any (fun e => e.path == entry.path && e.packageName == entry.packageName) then
    entries.map (fun e =>
      if e.path == entry.path && e.packageName == entry.packageName then entry else e)
  else entries ++ [entry]

/-- Write a candidate file and upsert its marker entry, the mutation step
6 of the extraction algorithm. -/
def writeManaged (st : OutState) (p content : String) (entry : ManagedFileMetadata) : OutState :=
  { files := setAssoc p content st.files,
    markers := setAssoc (dirOf p) (upsertEntry entry (loadMarkerAt st (dirOf p))) st.markers }

/-- Classification of one processed candidate. -/
inductive FileClass where
  | added : FileClass
  | addedForce : FileClass
  | modified : FileClass
  | skipped : FileClass
deriving DecidableEq

/-- Errors of the engine; the conflict error names the path and, when an
entry for the path exists for another package, the owning package. -/
inductive ConsumerError where
  | fileConflict (path : String) (owner : Option String) : ConsumerError
deriving DecidableEq

/-- Modelled from the spec, section 4.3 steps 1 to 6: classify one
candidate against the on-disk state and the marker of its directory, and
apply the resulting write.  An absent destination is an add; a destination
managed by this package is an update when the content differs and a skip
otherwise; an unmanaged occupied destination is a conflict unless
allowConflicts is set, in which case it is a force add. -/
def processFile (pkg ver : String) (allowConflicts : Bool) (st : OutState)
    (p content : String) : Except ConsumerError (OutState × FileClass) :=
  let marker := loadMarkerAt st (dirOf p)
  match lookupAssoc p st.files with
  | none => .ok (writeManaged st p content ⟨baseOf p, pkg, ver, false⟩, .added)
  | some onDisk =>
    if isManagedBy marker (baseOf p) pkg then
      if onDisk.data == content.data then .ok (st, .skipped)
      else .ok (writeManaged st p content ⟨baseOf p, pkg, ver, false⟩, .modified)
    else if allowConflicts then
      .ok (writeManaged st p content ⟨baseOf p, pkg, ver, true⟩, .addedForce)
    else .error (.fileConflict p (findOwner marker (baseOf p)))

/-- Fold one classified candidate into the added, modified and skipped
lists accumulated by the rest of the walk; an error passes through. -/
def combineResult (p : String) (cls : FileClass) :
    Except ConsumerError (List String × List String × List String) →
    Except ConsumerError (List String × List String × List String)
  | .error e => .error e
  | .ok (a, m, s) =>
    .ok (match cls with
      | .added => (p :: a, m, s)
      | .addedForce => (p :: a, m, s)
      | .modified => (a, p :: m, s)
      | .skipped => (a, m, p :: s))

/-- Modelled from the spec: the walk over the candidate list, failing fast
on the first conflict and otherwise accumulating the added, modified and
skipped path lists in walk order.  On an error the state reached so far is
returned unchanged. -/
def extractWalk (pkg ver : String) (ac : Bool) :
    OutState → List (String × String) →
    OutState × Except ConsumerError (List String × List String × List String)
  | st, [] => (st, .ok ([], [], []))
  | st, (p, content) :: rest =>
    match processFile pkg ver ac st p content with
    | .error e => (st, .error e)
    | .ok (st1, cls) =>
      let r := extractWalk pkg ver ac st1 rest
      (r.1, combineResult p cls r.2)

/-- Keep predicate of the orphan cleanup: an entry survives unless it
belongs to the extracting package and its path is no longer among the
candidates. -/
def entryKeep (pkg : String) (candPaths : List String) (dir : String)
    (e : ManagedFileMetadata) : Bool :=
  !(e.packageName == pkg) || candPaths.contains (joinRel dir e.path)

/-- Modelled from the spec: orphan cleanup after the walk.  Entries of the
extracting package whose paths this run no longer produces are dropped
from their markers, their files are removed, and their paths reported as
deleted. -/
def orphanPass (pkg : String) (candPaths : List String) (st : OutState) :
    OutState × List String :=
  let deleted := (st.markers.map (fun dm =>
    ((dm.2.filter (fun e => !(entryKeep pkg candPaths dm.1 e))).map
      (fun e => joinRel dm.1 e.path)))).flatten
  ({ files := st.files.filter (fun pc => !(deleted.contains pc.1)),
     markers := st.markers.map (fun dm => (dm.1, dm.2.filter (entryKeep pkg candPaths dm.1))) },
   deleted)

/-- ConsumerResult for one package, the added, modified, deleted and
skipped path lists of src/lib/src/types.ts lines 124 to 139. -/
structure ConsumerResult where
  added : List String
  modified : List String
  deleted : List String
  skipped : List String
deriving DecidableEq

/-- Modelled from the spec, section 4.3: extract one package into the
output state given its candidate files (output-relative path and source
content).  The walk fails fast on a conflict; on success the orphan
cleanup runs and the aggregate result is returned. -/
def extract (pkg ver : String) (allowConflicts : Bool) (st : OutState)
    (cands : List (String × String)) : OutState × Except ConsumerError ConsumerResult :=
  match extractWalk pkg ver allowConflicts st cands with
  | (st1, .error e) => (st1, .error e)
  | (st1, .ok (a, m, s)) =>
    let od := orphanPass pkg (cands.map Prod.fst) st1
    (od.1, .ok ⟨a, m, od.2, s⟩)

/-- Classification of one candidate by the check operation. -/
inductive CheckClass where
  | missing : CheckClass
  | modifiedC : CheckClass
  | extra : CheckClass
  | inSync : CheckClass
deriving DecidableEq

/-- Modelled from the spec, section 4.4: a candidate with a marker entry
for the package is missing when absent from disk and modified when its
bytes differ from the package source; a candidate without an entry is
extra. -/
def checkFile (pkg : String) (st : OutState) (p content : String) : CheckClass :=
  let marker := loadMarkerAt st (dirOf p)
  if isManagedBy marker (baseOf p) pkg then
    match lookupAssoc p st.files with
    | none => .missing
    | some onDisk => if onDisk.data == content.data then .inSync else .modifiedC
  else .extra

/-- CheckResult for one package: the ok flag and the three difference
lists of src/lib/src/types.ts lines 144 to 183. -/
structure CheckResult where
  ok : Bool
  missing : List String
  modified : List String
  extra : List String
deriving DecidableEq

/-- Modelled from the spec, section 4.4: classify every candidate and
aggregate; ok holds exactly when no candidate is missing or modified. -/
def check (pkg : String) (st : OutState) (cands : List (String × String)) : CheckResult :=
  let missing := (cands.filter (fun pc => checkFile pkg st pc.1 pc.2 == .missing)).map Prod.fst
  let modified :=
    (cands.filter (fun pc => checkFile pkg st pc.1 pc.2 == .modifiedC)).map Prod.fst
  let extra := (cands.filter (fun pc => checkFile pkg st pc.1 pc.2 == .extra)).map Prod.fst
  ⟨missing.isEmpty && modified.isEmpty, missing, modified, extra⟩


/-! ## Supporting lemmas -/

theorem stringDataEq {s t : String} (h : s.data = t.data) : s = t := by
  cases s; cases t; exact congrArg String.mk h

theorem lookupAssoc_setAssoc_self {β : Type} (k : String) (v : β) (l : List (String × β)) :
    lookupAssoc k (setAssoc k v l) = some v := by
  induction l with
  | nil => simp [setAssoc, lookupAssoc]
  | cons h t ih =>
    obtain ⟨k1, v1⟩ := h
    by_cases hk : (k1 == k) = true
    · simp [setAssoc, lookupAssoc, hk]
    · simp only [Bool.not_eq_true] at hk
      simp [setAssoc, lookupAssoc, hk, ih]

theorem lookupAssoc_setAssoc_ne {β : Type} (k q : String) (v : β) (l : List (String × β))
    (h : q ≠ k) : lookupAssoc q (setAssoc k v l) = lookupAssoc q l := by
  induction l with
  | nil =>
    simp [setAssoc, lookupAssoc]
    exact fun hh => h hh.symm
  | cons hd t ih =>
    obtain ⟨k1, v1⟩ := hd
    by_cases hk : (k1 == k) = true
    · have hk1 : k1 = k := eq_of_beq hk
      subst hk1
      simp [setAssoc, lookupAssoc, beq_eq_false_iff_ne.mpr (fun hh => h hh.symm)]
    · simp only [Bool.not_eq_true] at hk
      by_cases hq : (k1 == q) = true
      · simp [setAssoc, lookupAssoc, hk, hq]
      · simp only [Bool.not_eq_true] at hq
        simp [setAssoc, lookupAssoc, hk, hq, ih]

theorem ensureDir_contains (d : String) (fs : SimpleFS) :
    (ensureDir d fs).dirs.contains d = true := by
  unfold ensureDir
  by_cases h : d ∈ fs.dirs
  · simp [h]
  · simp [h]

/-! ## Claim theorems for the filter layer -/

/-- C3: for every file path and pattern list, if the path matches a pattern
prefixed with an exclamation mark (matching in the sense of the matchesPattern
helper applied to the pattern with the prefix stripped), then
matchesFilenamePattern returns false, regardless of the include patterns in
the same list. -/
theorem C3_exclude_takes_precedence (cwd filePath : String) (patterns : List String)
    (pat : String) (hmem : pat ∈ patterns) (hexcl : strStarts pat.data ['!'] = true)
    (hmatch : matchesPattern filePath (baseNameOf filePath) (pathResolve cwd filePath)
      (strDrop1 pat) = true) :
    matchesFilenamePattern cwd filePath (some patterns) = false := by
  have hx : ((patterns.filter (fun p => strStarts p.data ['!'])).map strDrop1).any
      (fun q => matchesPattern filePath (baseNameOf filePath) (pathResolve cwd filePath) q)
      = true := by
    rw [List.any_eq_true]
    exact ⟨strDrop1 pat, List.mem_map_of_mem _ (List.mem_filter.mpr ⟨hmem, hexcl⟩), hmatch⟩
  simp only [matchesFilenamePattern]
  rw [hx]
  rfl

/-- C3 witness: the repo test vector with patterns for all js files and an
exclude for all js files rejects a js file. -/
theorem C3_witness :
    matchesFilenamePattern "/w" "test/file.js" (some ["**/*.js", "!**/*.js"]) = false :=
  C3_exclude_takes_precedence "/w" "test/file.js" ["**/*.js", "!**/*.js"] "!**/*.js"
    (by decide) (by decide) (by decide)

/-- C10: an empty pattern list is truthy in JavaScript, flows past the
absent-patterns check, matches no exclude and has no include, so the file is
accepted, the same outcome as an absent patterns argument. -/
theorem C10_empty_pattern_list (cwd filePath : String) :
    matchesFilenamePattern cwd filePath (some []) = true ∧
    matchesFilenamePattern cwd filePath none = true :=
  ⟨rfl, rfl⟩

/-- C5: evaluation of the code at the failing inputs.  Relative candidate
paths under bin or node_modules are resolved to absolute paths before
matching, the exclude patterns with a slash are matched against that
absolute path whose first segment is empty, so they never match and the
paths are accepted; the basename excludes for package.json and README.md do
work.  The last conjunct is the repo test vector (part_001 line 246) that
expects false. -/
theorem C5_default_patterns_eval :
    matchesFilenamePattern "/work" "bin/test.js" (some DEFAULT_FILENAME_PATTERNS) = true ∧
    matchesFilenamePattern "/work" "node_modules/x/a.md" (some DEFAULT_FILENAME_PATTERNS)
      = true ∧
    matchesFilenamePattern "/work" "docs/guide.md" (some DEFAULT_FILENAME_PATTERNS) = true ∧
    matchesFilenamePattern "/work" "package.json" (some DEFAULT_FILENAME_PATTERNS) = false ∧
    matchesFilenamePattern "/work" "docs/README.md" (some DEFAULT_FILENAME_PATTERNS) = false ∧
    matchesFilenamePattern "/work" "bin/file.js" (some ["**/*.js", "!bin/**"]) = true :=
  ⟨by decide, by decide, by decide, by decide, by decide, by decide⟩

/-- C9: when content regex patterns are supplied and the file read failed,
matchesContentRegex returns false (the catch branch), so the error does not
propagate and the file is just not matched. -/
theorem C9_unreadable_file_excluded (patterns : List (String → Bool)) :
    matchesContentRegex none (some patterns) = false := rfl

/-- C6: loading the marker record of a directory fails with an error naming
the offending marker file when the file is present but its content does not
parse as structured JSON, and yields the empty record when the file is
absent. -/
theorem C6_marker_load (parseJson : String → Option FolderPublisherMarker) (dir s : String)
    (hbad : parseJson s = none) :
    loadMarkerRecord parseJson dir (some s) =
      .error ("Failed to read JSON file " ++ markerPath dir) ∧
    loadMarkerRecord parseJson dir none = .ok ⟨[]⟩ := by
  constructor
  · simp [loadMarkerRecord, readJsonFile, hbad]
  · rfl

/-- C6 witness: a parser rejecting everything makes the load of a present
marker fail naming the file, and an absent marker loads as empty. -/
theorem C6_witness :
    loadMarkerRecord (fun _ => none) "/out" (some "not json") =
      .error ("Failed to read JSON file " ++ markerPath "/out") ∧
    loadMarkerRecord (fun _ => none) "/out" none = .ok ⟨[]⟩ :=
  C6_marker_load (fun _ => none) "/out" "not json" rfl

/-- C8: saving a marker record writes, at the marker path, exactly the
deterministic serialization of the record followed by a trailing newline,
and the parent directory of the marker file exists afterwards (created when
missing).  The last conjunct evaluates the serialization on a concrete
record, exhibiting the pretty-printed two-space-indented JSON with the
field order of the source type.  Byte-level UTF-8 encoding is below the
string abstraction. -/
theorem C8_marker_save (fs : SimpleFS) (dir : String) (m : FolderPublisherMarker) :
    lookupAssoc (markerPath dir) (saveMarkerRecord dir m fs).files =
      some (stringifyMarker m ++ "\n") ∧
    (saveMarkerRecord dir m fs).dirs.contains (dirnameOf (markerPath dir)) = true ∧
    stringifyMarker ⟨[⟨"guide.md", "pkg", "1.0.0", false⟩]⟩ =
      "\x7b\n  \"managedFiles\": [\n    \x7b\n      \"path\": \"guide.md\",\n      \"packageName\": \"pkg\",\n      \"packageVersion\": \"1.0.0\",\n      \"force\": false\n    \x7d\n  ]\n\x7d" := by
  refine ⟨?_, ?_, by decide⟩
  · unfold saveMarkerRecord writeJsonFile
    exact lookupAssoc_setAssoc_self _ _ _
  · unfold saveMarkerRecord writeJsonFile
    exact ensureDir_contains _ _

/-- C7 counterexample: two installed versions parsing to the same
(major, minor, patch) triple get different results for the same constraint,
because validateSemverMatch short-circuits on literal string equality and
its exact-match arm compares strings, not parsed triples. -/
theorem C7_counterexample :
    parsedTriple "1.0.0" = parsedTriple "1.00.0" ∧
    validateSemverMatch "1.00.0" (some "1.00.0") = true ∧
    validateSemverMatch "1.0.0" (some "1.00.0") = false :=
  ⟨by decide, by decide, by decide⟩

/-- Branches of the switch for the six comparison operators consult only
the parsed triples, never the version strings. -/
theorem semverOpResult_comparison (op : String) (t ct : JNum × JNum × JNum)
    (a b verA verB : String)
    (hop : op = "^" ∨ op = "~" ∨ op = ">=" ∨ op = ">" ∨ op = "<=" ∨ op = "<") :
    semverOpResult op t ct a verA = semverOpResult op t ct b verB := by
  rcases hop with h | h | h | h | h | h <;> subst h <;> rfl

/-- C7 amended: an absent constraint always yields true, and for a
constraint whose operator is one of the six comparison operators the result
is determined solely by the operator and the parsed triples, provided the
installed version string is not literally equal to the whole constraint
string (the literal-equality short circuit of line 185 and the
string-comparing exact arm are what the counterexample forces out of the
original claim). -/
theorem C7_semver_triples :
    (∀ v, validateSemverMatch v none = true) ∧
    (∀ v1 v2 c op version, parseConstraint c = some (op, version) →
      (op = "^" ∨ op = "~" ∨ op = ">=" ∨ op = ">" ∨ op = "<=" ∨ op = "<") →
      parsedTriple v1 = parsedTriple v2 → v1 ≠ c → v2 ≠ c →
      validateSemverMatch v1 (some c) = validateSemverMatch v2 (some c)) := by
  constructor
  · intro v; rfl
  · intro v1 v2 c op version hp hop ht h1 h2
    have hcne : c.data.isEmpty = false := by
      cases hc : c.data with
      | nil => rw [parseConstraint] at hp; rw [hc] at hp; simp at hp
      | cons x xs => simp
    have h1d : (v1.data == c.data) = false := by
      rw [beq_eq_false_iff_ne]
      exact fun hh => h1 (stringDataEq hh)
    have h2d : (v2.data == c.data) = false := by
      rw [beq_eq_false_iff_ne]
      exact fun hh => h2 (stringDataEq hh)
    rw [validateSemverMatch, validateSemverMatch, hcne, h1d, h2d, hp]
    simp only [Bool.false_eq_true, if_false]
    rw [ht]
    exact semverOpResult_comparison op _ _ v1 v2 version version hop

/-- C7 witness: two installed versions with the same parsed triple agree on
a caret constraint. -/
theorem C7_witness :
    validateSemverMatch "1.2.3" (some "^1.2.0") =
      validateSemverMatch "1.2.03" (some "^1.2.0") :=
  C7_semver_triples.2 "1.2.3" "1.2.03" "^1.2.0" "^" "1.2.0" (by decide) (Or.inl rfl)
    (by decide) (by decide) (by decide)

/-- The walk of findMatchingFiles produces exactly the visible files (those
not hidden behind a dot directory) that pass both filters, in walk order. -/
theorem walkDir_eq_filter (cwd : String) (fps : Option (List String))
    (crs : Option (List (String → Bool))) (t : FTree) : ∀ cur,
    walkDir cwd fps crs cur t =
      ((visibleFiles cur t).filter (fun pc =>
        matchesFilenamePattern cwd pc.1 fps && matchesContentRegex pc.2 crs)).map Prod.fst := by
  induction t with
  | nilE => intro cur; rfl
  | fileE name c rest ih =>
    intro cur
    by_cases h : (matchesFilenamePattern cwd (joinPath cur name) fps &&
        matchesContentRegex c crs) = true
    · simp [walkDir, visibleFiles, List.filter_cons, h, ih cur]
    · simp only [Bool.not_eq_true] at h
      simp [walkDir, visibleFiles, List.filter_cons, h, ih cur]
  | dirE name children rest ih1 ih2 =>
    intro cur
    by_cases h : strStarts name.data ['.'] = true
    · simp [walkDir, visibleFiles, h, ih2 cur]
    · simp only [Bool.not_eq_true] at h
      simp [walkDir, visibleFiles, h, ih1 (joinPath cur name), ih2 cur,
        List.filter_append, List.map_append]

/-- C4 counterexample: a file inside a hidden directory satisfies both
filter dimensions (patterns absent on both), yet findMatchingFiles does not
return it, because the walk skips directories whose names start with a dot;
so membership in the result is not equivalent to passing the two filter
dimensions over all files of the tree. -/
theorem C4_counterexample :
    ("/r/.h/a.md", some "x") ∈
      allFiles "/r" (FTree.dirE ".h" (.fileE "a.md" (some "x") .nilE) .nilE) ∧
    matchesFilenamePattern "/w" "/r/.h/a.md" none = true ∧
    matchesContentRegex (some "x") none = true ∧
    "/r/.h/a.md" ∉
      findMatchingFiles "/w" "/r" none none
        (FTree.dirE ".h" (.fileE "a.md" (some "x") .nilE) .nilE) :=
  ⟨by decide, by decide, by decide, by decide⟩

/-- C4 amended: findMatchingFiles returns a file if and only if the file is
visible (reachable without descending into a directory whose name starts
with a dot, which the walk skips) and satisfies the filename patterns and,
when content regex patterns are supplied, its content matches at least one
of them; an absent filename patterns argument passes every file and an
absent content regex argument passes every content. -/
theorem C4_find_matching_files (cwd dir : String) (fps : Option (List String))
    (crs : Option (List (String → Bool))) (tree : FTree) (p : String) :
    (p ∈ findMatchingFiles cwd dir fps crs tree ↔
      ∃ c, (p, c) ∈ visibleFiles dir tree ∧
        matchesFilenamePattern cwd p fps = true ∧ matchesContentRegex c crs = true) ∧
    (∀ q, matchesFilenamePattern cwd q none = true) ∧
    (∀ c, matchesContentRegex c none = true) := by
  refine ⟨?_, fun q => rfl, fun c => rfl⟩
  rw [findMatchingFiles, walkDir_eq_filter]
  simp only [List.mem_map, List.mem_filter, Bool.and_eq_true]
  constructor
  · rintro ⟨⟨q, c⟩, ⟨hmem, hf, hc⟩, rfl⟩
    exact ⟨c, hmem, hf, hc⟩
  · rintro ⟨c, hmem, hf, hc⟩
    exact ⟨(p, c), ⟨hmem, hf, hc⟩, rfl⟩

/-! ## Supporting lemmas for the synchronization engine -/

theorem goodPath_inj {p q : String} (hp : goodPath p) (hq : goodPath q)
    (hdir : dirOf p = dirOf q) (hbase : baseOf p = baseOf q) : p = q := by
  unfold goodPath at hp hq
  rw [← hp, ← hq, hdir, hbase]

theorem writeManaged_lookup_self (st : OutState) (p c : String) (e : ManagedFileMetadata) :
    lookupAssoc p (writeManaged st p c e).files = some c :=
  lookupAssoc_setAssoc_self p c st.files

theorem writeManaged_lookup_ne (st : OutState) (p c q : String) (e : ManagedFileMetadata)
    (h : q ≠ p) : lookupAssoc q (writeManaged st p c e).files = lookupAssoc q st.files :=
  lookupAssoc_setAssoc_ne p q c st.files h

theorem loadMarkerAt_writeManaged_self (st : OutState) (p c : String)
    (e : ManagedFileMetadata) :
    loadMarkerAt (writeManaged st p c e) (dirOf p) =
      upsertEntry e (loadMarkerAt st (dirOf p)) := by
  unfold loadMarkerAt writeManaged
  rw [lookupAssoc_setAssoc_self]
  rfl

theorem loadMarkerAt_writeManaged_ne (st : OutState) (p c : String) (e : ManagedFileMetadata)
    (d : String) (h : d ≠ dirOf p) :
    loadMarkerAt (writeManaged st p c e) d = loadMarkerAt st d := by
  unfold loadMarkerAt writeManaged
  rw [lookupAssoc_setAssoc_ne _ _ _ _ h]

theorem upsertEntry_mem (e : ManagedFileMetadata) (es : List ManagedFileMetadata) :
    e ∈ upsertEntry e es := by
  unfold upsertEntry
  by_cases h : es.any (fun x => x.path == e.path && x.packageName == e.packageName) = true
  · rw [if_pos h]
    rw [List.any_eq_true] at h
    obtain ⟨x, hx, hmatch⟩ := h
    rw [List.mem_map]
    exact ⟨x, hx, by rw [if_pos hmatch]⟩
  · rw [if_neg h]
    exact List.mem_append_right es (List.mem_singleton.mpr rfl)

theorem mem_upsertEntry_of_ne (e x : ManagedFileMetadata) (es : List ManagedFileMetadata)
    (hx : x ∈ es) (hne : x.path ≠ e.path) : x ∈ upsertEntry e es := by
  unfold upsertEntry
  by_cases h : es.any (fun y => y.path == e.path && y.packageName == e.packageName) = true
  · rw [if_pos h, List.mem_map]
    refine ⟨x, hx, ?_⟩
    rw [if_neg]
    intro hk
    rw [Bool.and_eq_true] at hk
    exact hne (eq_of_beq hk.1)
  · rw [if_neg h]
    exact List.mem_append_left _ hx

theorem isManagedBy_upsert_self (base pkg ver : String) (f : Bool)
    (es : List ManagedFileMetadata) :
    isManagedBy (upsertEntry ⟨base, pkg, ver, f⟩ es) base pkg = true := by
  unfold isManagedBy
  rw [List.any_eq_true]
  exact ⟨⟨base, pkg, ver, f⟩, upsertEntry_mem _ es, by simp⟩

theorem any_congr_mem {α : Type} {f g : α → Bool} :
    ∀ l : List α, (∀ x ∈ l, f x = g x) → l.any f = l.any g
  | [], _ => rfl
  | x :: t, h => by
    simp only [List.any_cons]
    rw [h x (List.mem_cons_self x t),
      any_congr_mem t (fun y hy => h y (List.mem_cons_of_mem x hy))]

theorem isManagedBy_upsert_ne (e : ManagedFileMetadata) (es : List ManagedFileMetadata)
    (base pkg : String) (hne : base ≠ e.path) :
    isManagedBy (upsertEntry e es) base pkg = isManagedBy es base pkg := by
  unfold upsertEntry isManagedBy
  by_cases h : es.any (fun y => y.path == e.path && y.packageName == e.packageName) = true
  · rw [if_pos h, List.any_map]
    apply any_congr_mem
    intro x hx
    simp only [Function.comp]
    by_cases hk : (x.path == e.path && x.packageName == e.packageName) = true
    · rw [if_pos hk]
      rw [Bool.and_eq_true] at hk
      rw [show e.path = x.path from (eq_of_beq hk.1).symm,
        show e.packageName = x.packageName from (eq_of_beq hk.2).symm]
    · rw [if_neg hk]
  · rw [if_neg h, List.any_append]
    have hpe : (e.path == base) = false := beq_eq_false_iff_ne.mpr (fun hh => hne hh.symm)
    simp [hpe]

theorem isManagedBy_mem (es : List ManagedFileMetadata) (base pkg : String)
    (h : isManagedBy es base pkg = true) :
    ∃ e ∈ es, e.path = base ∧ e.packageName = pkg := by
  unfold isManagedBy at h
  rw [List.any_eq_true] at h
  obtain ⟨e, he, hm⟩ := h
  rw [Bool.and_eq_true] at hm
  exact ⟨e, he, eq_of_beq hm.1, eq_of_beq hm.2⟩

theorem isManagedBy_of_mem (es : List ManagedFileMetadata) (base pkg : String)
    (e : ManagedFileMetadata) (he : e ∈ es) (hp : e.path = base) (hk : e.packageName = pkg) :
    isManagedBy es base pkg = true := by
  unfold isManagedBy
  rw [List.any_eq_true]
  exact ⟨e, he, by rw [hp, hk]; simp⟩

theorem processFile_add (pkg ver : String) (ac : Bool) (st : OutState) (q cq : String)
    (hq : lookupAssoc q st.files = none) :
    processFile pkg ver ac st q cq =
      .ok (writeManaged st q cq ⟨baseOf q, pkg, ver, false⟩, .added) := by
  simp [processFile, hq]

theorem processFile_skip (pkg ver : String) (ac : Bool) (st : OutState) (q cq : String)
    (hq : lookupAssoc q st.files = some cq)
    (hm : isManagedBy (loadMarkerAt st (dirOf q)) (baseOf q) pkg = true) :
    processFile pkg ver ac st q cq = .ok (st, .skipped) := by
  simp [processFile, hq, hm]

theorem processFile_conflict (pkg ver : String) (st : OutState) (q cq c0 : String)
    (hq : lookupAssoc q st.files = some c0)
    (hm : isManagedBy (loadMarkerAt st (dirOf q)) (baseOf q) pkg = false) :
    processFile pkg ver false st q cq =
      .error (.fileConflict q (findOwner (loadMarkerAt st (dirOf q)) (baseOf q))) := by
  simp [processFile, hq, hm]

theorem processFile_force (pkg ver : String) (st : OutState) (q cq c0 : String)
    (hq : lookupAssoc q st.files = some c0)
    (hm : isManagedBy (loadMarkerAt st (dirOf q)) (baseOf q) pkg = false) :
    processFile pkg ver true st q cq =
      .ok (writeManaged st q cq ⟨baseOf q, pkg, ver, true⟩, .addedForce) := by
  simp [processFile, hq, hm]

theorem processFile_state (pkg ver : String) (ac : Bool) (st st1 : OutState)
    (q cq : String) (cls : FileClass)
    (h : processFile pkg ver ac st q cq = .ok (st1, cls)) :
    st1 = st ∨ ∃ f, st1 = writeManaged st q cq ⟨baseOf q, pkg, ver, f⟩ := by
  cases hq : lookupAssoc q st.files with
  | none =>
    rw [processFile_add pkg ver ac st q cq hq] at h
    injection h with h
    injection h with h1 _
    exact Or.inr ⟨false, h1.symm⟩
  | some onDisk =>
    by_cases hm : isManagedBy (loadMarkerAt st (dirOf q)) (baseOf q) pkg = true
    · by_cases hd : (onDisk.data == cq.data) = true
      · have honc : onDisk = cq := stringDataEq (eq_of_beq hd)
        rw [honc] at hq
        rw [processFile_skip pkg ver ac st q cq hq hm] at h
        injection h with h
        injection h with h1 _
        exact Or.inl h1.symm
      · have : processFile pkg ver ac st q cq =
            .ok (writeManaged st q cq ⟨baseOf q, pkg, ver, false⟩, .modified) := by
          simp [processFile, hq, hm, hd]
        rw [this] at h
        injection h with h
        injection h with h1 _
        exact Or.inr ⟨false, h1.symm⟩
    · simp only [Bool.not_eq_true] at hm
      cases hac : ac with
      | true =>
        subst hac
        rw [processFile_force pkg ver st q cq onDisk hq hm] at h
        injection h with h
        injection h with h1 _
        exact Or.inr ⟨true, h1.symm⟩
      | false =>
        subst hac
        rw [processFile_conflict pkg ver st q cq onDisk hq hm] at h
        exact absurd h (by simp)

theorem processFile_establishes (pkg ver : String) (ac : Bool) (st st1 : OutState)
    (q cq : String) (cls : FileClass)
    (h : processFile pkg ver ac st q cq = .ok (st1, cls)) :
    lookupAssoc q st1.files = some cq ∧
    isManagedBy (loadMarkerAt st1 (dirOf q)) (baseOf q) pkg = true := by
  have hw : ∀ f : Bool, st1 = writeManaged st q cq ⟨baseOf q, pkg, ver, f⟩ →
      lookupAssoc q st1.files = some cq ∧
      isManagedBy (loadMarkerAt st1 (dirOf q)) (baseOf q) pkg = true := by
    intro f hf
    subst hf
    refine ⟨writeManaged_lookup_self _ _ _ _, ?_⟩
    rw [loadMarkerAt_writeManaged_self]
    exact isManagedBy_upsert_self _ _ _ _ _
  cases hq : lookupAssoc q st.files with
  | none =>
    rw [processFile_add pkg ver ac st q cq hq] at h
    injection h with h
    injection h with h1 _
    exact hw false h1.symm
  | some onDisk =>
    by_cases hm : isManagedBy (loadMarkerAt st (dirOf q)) (baseOf q) pkg = true
    · by_cases hd : (onDisk.data == cq.data) = true
      · have honc : onDisk = cq := stringDataEq (eq_of_beq hd)
        rw [honc] at hq
        rw [processFile_skip pkg ver ac st q cq hq hm] at h
        injection h with h
        injection h with h1 _
        rw [← h1]
        exact ⟨hq, hm⟩
      · have : processFile pkg ver ac st q cq =
            .ok (writeManaged st q cq ⟨baseOf q, pkg, ver, false⟩, .modified) := by
          simp [processFile, hq, hm, hd]
        rw [this] at h
        injection h with h
        injection h with h1 _
        exact hw false h1.symm
    · simp only [Bool.not_eq_true] at hm
      cases hac : ac with
      | true =>
        subst hac
        rw [processFile_force pkg ver st q cq onDisk hq hm] at h
        injection h with h
        injection h with h1 _
        exact hw true h1.symm
      | false =>
        subst hac
        rw [processFile_conflict pkg ver st q cq onDisk hq hm] at h
        exact absurd h (by simp)

theorem processFile_true_ok (pkg ver : String) (st : OutState) (q cq : String) :
    ∃ st1 cls, processFile pkg ver true st q cq = .ok (st1, cls) := by
  cases hq : lookupAssoc q st.files with
  | none => exact ⟨_, _, processFile_add pkg ver true st q cq hq⟩
  | some onDisk =>
    by_cases hm : isManagedBy (loadMarkerAt st (dirOf q)) (baseOf q) pkg = true
    · by_cases hd : (onDisk.data == cq.data) = true
      · have honc : onDisk = cq := stringDataEq (eq_of_beq hd)
        rw [honc] at hq
        exact ⟨_, _, processFile_skip pkg ver true st q cq hq hm⟩
      · exact ⟨writeManaged st q cq ⟨baseOf q, pkg, ver, false⟩, .modified,
          by simp [processFile, hq, hm, hd]⟩
    · simp only [Bool.not_eq_true] at hm
      exact ⟨_, _, processFile_force pkg ver st q cq onDisk hq hm⟩


theorem extractWalk_nil (pkg ver : String) (ac : Bool) (st : OutState) :
    extractWalk pkg ver ac st [] = (st, .ok ([], [], [])) := rfl

theorem combineResult_error (q : String) (cls : FileClass) (e : ConsumerError) :
    combineResult q cls (.error e) = .error e := rfl

theorem combineResult_ok (q : String) (cls : FileClass) (a m sk : List String) :
    ∃ a2 m2 sk2, combineResult q cls (.ok (a, m, sk)) = .ok (a2, m2, sk2) := by
  cases cls
  · exact ⟨q :: a, m, sk, rfl⟩
  · exact ⟨q :: a, m, sk, rfl⟩
  · exact ⟨a, q :: m, sk, rfl⟩
  · exact ⟨a, m, q :: sk, rfl⟩

theorem extractWalk_cons_err (pkg ver : String) (ac : Bool) (st : OutState) (q cq : String)
    (rest : List (String × String)) (e : ConsumerError)
    (hpf : processFile pkg ver ac st q cq = .error e) :
    extractWalk pkg ver ac st ((q, cq) :: rest) = (st, .error e) := by
  show (match processFile pkg ver ac st q cq with
    | .error e => (st, .error e)
    | .ok (st1, cls) =>
      let r := extractWalk pkg ver ac st1 rest
      (r.1, combineResult q cls r.2)) = (st, .error e)
  rw [hpf]

theorem extractWalk_cons_ok (pkg ver : String) (ac : Bool) (st : OutState) (q cq : String)
    (rest : List (String × String)) (st1 : OutState) (cls : FileClass)
    (hpf : processFile pkg ver ac st q cq = .ok (st1, cls))
    (st2 : OutState) (r2 : Except ConsumerError (List String × List String × List String))
    (hw : extractWalk pkg ver ac st1 rest = (st2, r2)) :
    extractWalk pkg ver ac st ((q, cq) :: rest) = (st2, combineResult q cls r2) := by
  show (match processFile pkg ver ac st q cq with
    | .error e => (st, .error e)
    | .ok (st1, cls) =>
      let r := extractWalk pkg ver ac st1 rest
      (r.1, combineResult q cls r.2)) = (st2, combineResult q cls r2)
  rw [hpf]
  show ((extractWalk pkg ver ac st1 rest).1,
    combineResult q cls (extractWalk pkg ver ac st1 rest).2) = (st2, combineResult q cls r2)
  rw [hw]

theorem extractWalk_true_ok (pkg ver : String) (cs : List (String × String)) :
    ∀ st : OutState, ∃ stF a m sk,
      extractWalk pkg ver true st cs = (stF, .ok (a, m, sk)) := by
  induction cs with
  | nil => intro st; exact ⟨st, [], [], [], rfl⟩
  | cons head t ih =>
    intro st
    obtain ⟨q, cq⟩ := head
    obtain ⟨st1, cls, hpf⟩ := processFile_true_ok pkg ver st q cq
    obtain ⟨stF, a, m, sk, hw⟩ := ih st1
    obtain ⟨a2, m2, sk2, hcomb⟩ := combineResult_ok q cls a m sk
    refine ⟨stF, a2, m2, sk2, ?_⟩
    rw [extractWalk_cons_ok pkg ver true st q cq t st1 cls hpf stF (.ok (a, m, sk)) hw, hcomb]

theorem walkKeepsEntry (pkg ver : String) (ac : Bool) (p v : String)
    (e : ManagedFileMetadata) (hep : e.path = baseOf p) (cs : List (String × String)) :
    ∀ (st stF : OutState) r, extractWalk pkg ver ac st cs = (stF, r) →
    p ∉ cs.map Prod.fst → goodPath p → (∀ q ∈ cs.map Prod.fst, goodPath q) →
    lookupAssoc p st.files = some v → e ∈ loadMarkerAt st (dirOf p) →
    lookupAssoc p stF.files = some v ∧ e ∈ loadMarkerAt stF (dirOf p) := by
  induction cs with
  | nil =>
    intro st stF r h _ _ _ hlk hmem
    rw [extractWalk_nil] at h
    injection h with h1 _
    rw [← h1]
    exact ⟨hlk, hmem⟩
  | cons head t ih =>
    intro st stF r h hp hgp hg hlk hmem
    obtain ⟨q, cq⟩ := head
    have hpq : p ≠ q := fun hh => hp (by simp [hh])
    cases hpf : processFile pkg ver ac st q cq with
    | error err =>
      rw [extractWalk_cons_err pkg ver ac st q cq t err hpf] at h
      injection h with h1 _
      rw [← h1]
      exact ⟨hlk, hmem⟩
    | ok pr =>
      obtain ⟨st1, cls⟩ := pr
      cases hw : extractWalk pkg ver ac st1 t with
      | mk st2 r2 =>
        rw [extractWalk_cons_ok pkg ver ac st q cq t st1 cls hpf st2 r2 hw] at h
        injection h with h1 _
        have hfacts : lookupAssoc p st1.files = some v ∧ e ∈ loadMarkerAt st1 (dirOf p) := by
          rcases processFile_state pkg ver ac st st1 q cq cls hpf with h0 | ⟨f, h0⟩
          · rw [h0]
            exact ⟨hlk, hmem⟩
          · rw [h0]
            constructor
            · rw [writeManaged_lookup_ne st q cq p _ hpq]
              exact hlk
            · by_cases hd : dirOf p = dirOf q
              · rw [hd, loadMarkerAt_writeManaged_self]
                apply mem_upsertEntry_of_ne
                · rw [← hd]
                  exact hmem
                · rw [hep]
                  intro hbb
                  exact hpq (goodPath_inj hgp (hg q (by simp)) hd hbb)
              · rw [loadMarkerAt_writeManaged_ne st q cq _ _ hd]
                exact hmem
        rw [← h1]
        exact ih st1 st2 r2 hw
          (fun hh => hp (by rw [List.map_cons]; exact List.mem_cons_of_mem _ hh)) hgp
          (fun x hx => hg x (by rw [List.map_cons]; exact List.mem_cons_of_mem _ hx))
          hfacts.1 hfacts.2

theorem walkEstablishesSync (pkg ver : String) (ac : Bool) (cs : List (String × String)) :
    ∀ (st stF : OutState) a m sk, extractWalk pkg ver ac st cs = (stF, .ok (a, m, sk)) →
    (cs.map Prod.fst).Nodup → (∀ q ∈ cs.map Prod.fst, goodPath q) →
    ∀ pc ∈ cs, lookupAssoc pc.1 stF.files = some pc.2 ∧
      isManagedBy (loadMarkerAt stF (dirOf pc.1)) (baseOf pc.1) pkg = true := by
  induction cs with
  | nil =>
    intro st stF a m sk _ _ _ pc hpc
    exact absurd hpc (List.not_mem_nil pc)
  | cons head t ih =>
    intro st stF a m sk h hnd hg pc hpc
    obtain ⟨q, cq⟩ := head
    cases hpf : processFile pkg ver ac st q cq with
    | error err =>
      rw [extractWalk_cons_err pkg ver ac st q cq t err hpf] at h
      exact absurd h (by simp)
    | ok pr =>
      obtain ⟨st1, cls⟩ := pr
      cases hw : extractWalk pkg ver ac st1 t with
      | mk st2 r2 =>
        rw [extractWalk_cons_ok pkg ver ac st q cq t st1 cls hpf st2 r2 hw] at h
        injection h with h1 h2
        cases r2 with
        | error e2 =>
          rw [combineResult_error] at h2
          exact absurd h2 (by simp)
        | ok tr =>
          obtain ⟨a1, m1, sk1⟩ := tr
          have hqt : q ∉ t.map Prod.fst := by
            rw [List.map_cons, List.nodup_cons] at hnd
            exact hnd.1
          rcases List.mem_cons.mp hpc with hpc1 | hpc2
          · subst hpc1
            have hest := processFile_establishes pkg ver ac st st1 q cq cls hpf
            obtain ⟨e, he, hepath, hek⟩ := isManagedBy_mem _ _ _ hest.2
            have hkeep := walkKeepsEntry pkg ver ac q cq e hepath t st1 st2
              (.ok (a1, m1, sk1)) hw hqt (hg q (by simp))
              (fun x hx => hg x (by rw [List.map_cons]; exact List.mem_cons_of_mem _ hx))
              hest.1 he
            rw [← h1]
            exact ⟨hkeep.1, isManagedBy_of_mem _ _ _ e hkeep.2 hepath hek⟩
          · rw [← h1]
            exact ih st1 st2 a1 m1 sk1 hw
              (by rw [List.map_cons, List.nodup_cons] at hnd; exact hnd.2)
              (fun x hx => hg x (by rw [List.map_cons]; exact List.mem_cons_of_mem _ hx))
              pc hpc2

theorem walkAllSynced (pkg ver : String) (ac : Bool) (cs : List (String × String)) :
    ∀ st : OutState, (∀ pc ∈ cs, lookupAssoc pc.1 st.files = some pc.2 ∧
      isManagedBy (loadMarkerAt st (dirOf pc.1)) (baseOf pc.1) pkg = true) →
    extractWalk pkg ver ac st cs = (st, .ok ([], [], cs.map Prod.fst)) := by
  induction cs with
  | nil => intro st _; rfl
  | cons head t ih =>
    intro st hsync
    obtain ⟨q, cq⟩ := head
    have hq := hsync (q, cq) (List.mem_cons_self _ _)
    have hrest := ih st (fun pc hpc => hsync pc (List.mem_cons_of_mem _ hpc))
    rw [extractWalk_cons_ok pkg ver ac st q cq t st .skipped
      (processFile_skip pkg ver ac st q cq hq.1 hq.2) st (.ok ([], [], t.map Prod.fst)) hrest]
    rfl

theorem walkFreshAdds (pkg ver : String) (ac : Bool) (p c0 : String)
    (pre : List (String × String)) :
    ∀ st : OutState,
    (pre.map Prod.fst).Nodup →
    (∀ q ∈ pre.map Prod.fst, goodPath q) →
    (∀ q ∈ pre.map Prod.fst, lookupAssoc q st.files = none) →
    p ∉ pre.map Prod.fst → goodPath p →
    lookupAssoc p st.files = some c0 →
    isManagedBy (loadMarkerAt st (dirOf p)) (baseOf p) pkg = false →
    ∃ stP a, extractWalk pkg ver ac st pre = (stP, .ok (a, [], [])) ∧
      lookupAssoc p stP.files = some c0 ∧
      isManagedBy (loadMarkerAt stP (dirOf p)) (baseOf p) pkg = false := by
  induction pre with
  | nil =>
    intro st _ _ _ _ _ hocc hunm
    exact ⟨st, [], rfl, hocc, hunm⟩
  | cons head t ih =>
    intro st hnd hg hf hp hgp hocc hunm
    obtain ⟨q, cq⟩ := head
    have hqf : lookupAssoc q st.files = none := hf q (by simp)
    have hpq : p ≠ q := fun hh => hp (by simp [hh])
    have hqt : q ∉ t.map Prod.fst := by
      rw [List.map_cons, List.nodup_cons] at hnd
      exact hnd.1
    have hf1 : ∀ x ∈ t.map Prod.fst,
        lookupAssoc x (writeManaged st q cq ⟨baseOf q, pkg, ver, false⟩).files = none := by
      intro x hx
      rw [writeManaged_lookup_ne st q cq x _ (fun hh => hqt (hh ▸ hx))]
      exact hf x (by rw [List.map_cons]; exact List.mem_cons_of_mem _ hx)
    have hocc1 : lookupAssoc p (writeManaged st q cq ⟨baseOf q, pkg, ver, false⟩).files
        = some c0 := by
      rw [writeManaged_lookup_ne st q cq p _ hpq]
      exact hocc
    have hunm1 : isManagedBy
        (loadMarkerAt (writeManaged st q cq ⟨baseOf q, pkg, ver, false⟩) (dirOf p))
        (baseOf p) pkg = false := by
      by_cases hd : dirOf p = dirOf q
      · rw [hd, loadMarkerAt_writeManaged_self, isManagedBy_upsert_ne]
        · rw [← hd]
          exact hunm
        · intro hbb
          exact hpq (goodPath_inj hgp (hg q (by simp)) hd hbb)
      · rw [loadMarkerAt_writeManaged_ne st q cq _ _ hd]
        exact hunm
    obtain ⟨stP, a, hwalk, hoccP, hunmP⟩ :=
      ih (writeManaged st q cq ⟨baseOf q, pkg, ver, false⟩)
        (by rw [List.map_cons, List.nodup_cons] at hnd; exact hnd.2)
        (fun x hx => hg x (by rw [List.map_cons]; exact List.mem_cons_of_mem _ hx))
        hf1 (fun hh => hp (by rw [List.map_cons]; exact List.mem_cons_of_mem _ hh))
        hgp hocc1 hunm1
    refine ⟨stP, q :: a, ?_, hoccP, hunmP⟩
    rw [extractWalk_cons_ok pkg ver ac st q cq t _ .added
      (processFile_add pkg ver ac st q cq hqf) stP (.ok (a, [], [])) hwalk]
    rfl

theorem extract_walk_err (pkg ver : String) (ac : Bool) (st : OutState)
    (cands : List (String × String)) (st1 : OutState) (e : ConsumerError)
    (hw : extractWalk pkg ver ac st cands = (st1, .error e)) :
    extract pkg ver ac st cands = (st1, .error e) := by
  show (match extractWalk pkg ver ac st cands with
    | (st1, Except.error e) => ((st1 : OutState), (Except.error e : Except ConsumerError ConsumerResult))
    | (st1, Except.ok (a, m, s)) =>
      let od := orphanPass pkg (cands.map Prod.fst) st1
      (od.1, Except.ok (ConsumerResult.mk a m od.2 s))) = (st1, Except.error e)
  rw [hw]

theorem extract_walk_ok (pkg ver : String) (ac : Bool) (st : OutState)
    (cands : List (String × String)) (st1 : OutState) (a m s : List String)
    (hw : extractWalk pkg ver ac st cands = (st1, .ok (a, m, s))) :
    extract pkg ver ac st cands =
      ((orphanPass pkg (cands.map Prod.fst) st1).1,
        .ok ⟨a, m, (orphanPass pkg (cands.map Prod.fst) st1).2, s⟩) := by
  show (match extractWalk pkg ver ac st cands with
    | (st1, Except.error e) => ((st1 : OutState), (Except.error e : Except ConsumerError ConsumerResult))
    | (st1, Except.ok (a, m, s)) =>
      let od := orphanPass pkg (cands.map Prod.fst) st1
      (od.1, Except.ok (ConsumerResult.mk a m od.2 s))) =
    ((orphanPass pkg (cands.map Prod.fst) st1).1,
      .ok ⟨a, m, (orphanPass pkg (cands.map Prod.fst) st1).2, s⟩)
  rw [hw]

theorem orphanPass_snd (pkg : String) (cp : List String) (st : OutState) :
    (orphanPass pkg cp st).2 =
      (st.markers.map (fun dm =>
        ((dm.2.filter (fun e => !(entryKeep pkg cp dm.1 e))).map
          (fun e => joinRel dm.1 e.path)))).flatten := rfl

theorem orphanPass_files (pkg : String) (cp : List String) (st : OutState) :
    (orphanPass pkg cp st).1.files =
      st.files.filter (fun pc => !((orphanPass pkg cp st).2.contains pc.1)) := rfl

theorem orphanPass_markers (pkg : String) (cp : List String) (st : OutState) :
    (orphanPass pkg cp st).1.markers =
      st.markers.map (fun dm => (dm.1, dm.2.filter (entryKeep pkg cp dm.1))) := rfl

theorem orphanPass_deleted (pkg : String) (cp : List String) (st : OutState) (d : String)
    (hd : d ∈ (orphanPass pkg cp st).2) : cp.contains d = false := by
  rw [orphanPass_snd, List.mem_flatten] at hd
  obtain ⟨inner, hinner, hdi⟩ := hd
  rw [List.mem_map] at hinner
  obtain ⟨dm, hdm, hin⟩ := hinner
  rw [← hin, List.mem_map] at hdi
  obtain ⟨e, hef, hje⟩ := hdi
  rw [List.mem_filter] at hef
  have hkeep := hef.2
  rw [Bool.not_eq_true'] at hkeep
  unfold entryKeep at hkeep
  rw [Bool.or_eq_false_iff] at hkeep
  rw [← hje]
  exact hkeep.2

theorem lookupAssoc_filter {β : Type} (p : String) (pred : String × β → Bool)
    (hp : ∀ v : β, pred (p, v) = true) :
    ∀ l : List (String × β), lookupAssoc p (l.filter pred) = lookupAssoc p l := by
  intro l
  induction l with
  | nil => rfl
  | cons hd t ih =>
    obtain ⟨k1, v1⟩ := hd
    by_cases hk : (k1 == p) = true
    · have hk1 : k1 = p := eq_of_beq hk
      subst hk1
      rw [List.filter_cons, if_pos (by rw [hp v1])]
      simp [lookupAssoc, ih]
    · simp only [Bool.not_eq_true] at hk
      by_cases hpred : pred (k1, v1) = true
      · rw [List.filter_cons, if_pos (by rw [hpred])]
        simp [lookupAssoc, hk, ih]
      · simp only [Bool.not_eq_true] at hpred
        rw [List.filter_cons, if_neg (by rw [hpred]; simp)]
        simp [lookupAssoc, hk, ih]

theorem orphanPass_lookup (pkg : String) (cp : List String) (st : OutState) (p : String)
    (hc : p ∈ cp) :
    lookupAssoc p (orphanPass pkg cp st).1.files = lookupAssoc p st.files := by
  rw [orphanPass_files]
  apply lookupAssoc_filter
  intro v
  have hcon : (orphanPass pkg cp st).2.contains p = false := by
    by_cases hmem : p ∈ (orphanPass pkg cp st).2
    · have hdel := orphanPass_deleted pkg cp st p hmem
      have hcc : cp.contains p = true := by simpa using hc
      rw [hcc] at hdel
      exact absurd hdel (by simp)
    · simpa using hmem
  rw [hcon]
  rfl

theorem lookupAssoc_markers_filter (pkg : String) (cp : List String) (d : String) :
    ∀ l : List (String × List ManagedFileMetadata),
    lookupAssoc d (l.map (fun dm => (dm.1, dm.2.filter (entryKeep pkg cp dm.1)))) =
      (lookupAssoc d l).map (fun es => es.filter (entryKeep pkg cp d)) := by
  intro l
  induction l with
  | nil => rfl
  | cons hd t ih =>
    obtain ⟨k1, es⟩ := hd
    by_cases hk : (k1 == d) = true
    · have hk1 : k1 = d := eq_of_beq hk
      subst hk1
      simp [lookupAssoc, List.map_cons]
    · simp only [Bool.not_eq_true] at hk
      simp [lookupAssoc, List.map_cons, hk, ih]

theorem loadMarkerAt_orphanPass (pkg : String) (cp : List String) (st : OutState)
    (d : String) :
    loadMarkerAt (orphanPass pkg cp st).1 d =
      (loadMarkerAt st d).filter (entryKeep pkg cp d) := by
  unfold loadMarkerAt
  rw [orphanPass_markers, lookupAssoc_markers_filter pkg cp d st.markers]
  cases lookupAssoc d st.markers with
  | none => rfl
  | some es => rfl

theorem orphanPass_keeps_entry (pkg : String) (cp : List String) (st : OutState)
    (p : String) (e : ManagedFileMetadata) (hgp : goodPath p) (hc : p ∈ cp)
    (hep : e.path = baseOf p) (hmem : e ∈ loadMarkerAt st (dirOf p)) :
    e ∈ loadMarkerAt (orphanPass pkg cp st).1 (dirOf p) := by
  rw [loadMarkerAt_orphanPass, List.mem_filter]
  refine ⟨hmem, ?_⟩
  unfold entryKeep
  have hj : joinRel (dirOf p) e.path = p := by rw [hep]; exact hgp
  rw [hj, show cp.contains p = true by simpa using hc]
  simp

theorem orphanPass_keeps_managed (pkg : String) (cp : List String) (st : OutState)
    (p : String) (hgp : goodPath p) (hc : p ∈ cp)
    (hm : isManagedBy (loadMarkerAt st (dirOf p)) (baseOf p) pkg = true) :
    isManagedBy (loadMarkerAt (orphanPass pkg cp st).1 (dirOf p)) (baseOf p) pkg = true := by
  obtain ⟨e, he, hep, hek⟩ := isManagedBy_mem _ _ _ hm
  exact isManagedBy_of_mem _ _ _ e
    (orphanPass_keeps_entry pkg cp st p e hgp hc hep he) hep hek

theorem orphanPass_inv (pkg : String) (cp : List String) (st : OutState) :
    ∀ dm ∈ (orphanPass pkg cp st).1.markers, ∀ e ∈ dm.2,
      e.packageName = pkg → cp.contains (joinRel dm.1 e.path) = true := by
  intro dm hdm e he hek
  rw [orphanPass_markers, List.mem_map] at hdm
  obtain ⟨⟨d0, es0⟩, hdm0, hmap⟩ := hdm
  subst hmap
  simp only [List.mem_filter] at he
  have hkeep := he.2
  unfold entryKeep at hkeep
  rw [Bool.or_eq_true] at hkeep
  rcases hkeep with hk1 | hk2
  · rw [Bool.not_eq_true', beq_eq_false_iff_ne] at hk1
    exact absurd hek hk1
  · exact hk2

theorem map_self_of_eq {α : Type} (f : α → α) :
    ∀ l : List α, (∀ x ∈ l, f x = x) → l.map f = l
  | [], _ => rfl
  | x :: t, h => by
    rw [List.map_cons, h x (List.mem_cons_self x t),
      map_self_of_eq f t (fun y hy => h y (List.mem_cons_of_mem x hy))]

theorem orphanPass_id (pkg : String) (cp : List String) (st : OutState)
    (hinv : ∀ dm ∈ st.markers, ∀ e ∈ dm.2,
      e.packageName = pkg → cp.contains (joinRel dm.1 e.path) = true) :
    orphanPass pkg cp st = (st, []) := by
  have hkeep : ∀ dm ∈ st.markers, ∀ e ∈ dm.2, entryKeep pkg cp dm.1 e = true := by
    intro dm hdm e he
    unfold entryKeep
    by_cases hpk : e.packageName = pkg
    · rw [hinv dm hdm e he hpk]
      simp
    · rw [beq_eq_false_iff_ne.mpr hpk]
      simp
  have hdel : (orphanPass pkg cp st).2 = [] := by
    rw [orphanPass_snd]
    apply List.flatten_eq_nil_iff.mpr
    intro x hx
    rw [List.mem_map] at hx
    obtain ⟨dm, hdm, hxe⟩ := hx
    have hfil : dm.2.filter (fun e => !(entryKeep pkg cp dm.1 e)) = [] := by
      rw [List.filter_eq_nil_iff]
      intro e he
      rw [hkeep dm hdm e he]
      simp
    rw [← hxe, hfil]
    rfl
  have hfiles : (orphanPass pkg cp st).1.files = st.files := by
    rw [orphanPass_files, hdel]
    apply List.filter_eq_self.mpr
    intro a _
    rfl
  have hmarkers : (orphanPass pkg cp st).1.markers = st.markers := by
    rw [orphanPass_markers]
    apply map_self_of_eq
    intro dm hdm
    obtain ⟨d0, es0⟩ := dm
    rw [List.filter_eq_self.mpr (fun e he => hkeep (d0, es0) hdm e he)]
  have h1 : (orphanPass pkg cp st).1 = st := by
    have heta : (orphanPass pkg cp st).1 =
        OutState.mk (orphanPass pkg cp st).1.files (orphanPass pkg cp st).1.markers := rfl
    rw [heta, hfiles, hmarkers]
  have heta2 : orphanPass pkg cp st =
      ((orphanPass pkg cp st).1, (orphanPass pkg cp st).2) := rfl
  rw [heta2, h1, hdel]

theorem checkFile_inSync (pkg : String) (st : OutState) (p content : String)
    (h1 : lookupAssoc p st.files = some content)
    (h2 : isManagedBy (loadMarkerAt st (dirOf p)) (baseOf p) pkg = true) :
    checkFile pkg st p content = .inSync := by
  simp [checkFile, h1, h2]

theorem checkAllSynced (pkg : String) (st : OutState) (cs : List (String × String))
    (hsync : ∀ pc ∈ cs, lookupAssoc pc.1 st.files = some pc.2 ∧
      isManagedBy (loadMarkerAt st (dirOf pc.1)) (baseOf pc.1) pkg = true) :
    check pkg st cs = ⟨true, [], [], []⟩ := by
  have hcf : ∀ pc ∈ cs, checkFile pkg st pc.1 pc.2 = .inSync := fun pc hpc =>
    checkFile_inSync pkg st pc.1 pc.2 (hsync pc hpc).1 (hsync pc hpc).2
  have hm : cs.filter (fun pc => checkFile pkg st pc.1 pc.2 == CheckClass.missing) = [] := by
    rw [List.filter_eq_nil_iff]
    intro pc hpc
    rw [hcf pc hpc]
    decide
  have hmod : cs.filter (fun pc => checkFile pkg st pc.1 pc.2 == CheckClass.modifiedC)
      = [] := by
    rw [List.filter_eq_nil_iff]
    intro pc hpc
    rw [hcf pc hpc]
    decide
  have hext : cs.filter (fun pc => checkFile pkg st pc.1 pc.2 == CheckClass.extra) = [] := by
    rw [List.filter_eq_nil_iff]
    intro pc hpc
    rw [hcf pc hpc]
    decide
  unfold check
  rw [hm, hmod, hext]
  rfl

theorem walkConflictPrefix (pkg ver : String) (p src c0 : String)
    (post : List (String × String)) (pre : List (String × String)) :
    ∀ st : OutState,
    (pre.map Prod.fst).Nodup →
    (∀ q ∈ pre.map Prod.fst, goodPath q) →
    (∀ q ∈ pre.map Prod.fst, lookupAssoc q st.files = none) →
    p ∉ pre.map Prod.fst → goodPath p →
    lookupAssoc p st.files = some c0 →
    isManagedBy (loadMarkerAt st (dirOf p)) (baseOf p) pkg = false →
    ∃ stP ow a, extractWalk pkg ver false st (pre ++ (p, src) :: post) =
      (stP, .error (.fileConflict p ow)) ∧
      extractWalk pkg ver false st pre = (stP, .ok (a, [], [])) := by
  induction pre with
  | nil =>
    intro st _ _ _ _ _ hocc hunm
    refine ⟨st, findOwner (loadMarkerAt st (dirOf p)) (baseOf p), [], ?_, rfl⟩
    rw [List.nil_append]
    exact extractWalk_cons_err pkg ver false st p src post _
      (processFile_conflict pkg ver st p src c0 hocc hunm)
  | cons head t ih =>
    intro st hnd hg hf hp hgp hocc hunm
    obtain ⟨q, cq⟩ := head
    have hqf : lookupAssoc q st.files = none := hf q (by simp)
    have hpq : p ≠ q := fun hh => hp (by simp [hh])
    have hqt : q ∉ t.map Prod.fst := by
      rw [List.map_cons, List.nodup_cons] at hnd
      exact hnd.1
    have hf1 : ∀ x ∈ t.map Prod.fst,
        lookupAssoc x (writeManaged st q cq ⟨baseOf q, pkg, ver, false⟩).files = none := by
      intro x hx
      rw [writeManaged_lookup_ne st q cq x _ (fun hh => hqt (hh ▸ hx))]
      exact hf x (by rw [List.map_cons]; exact List.mem_cons_of_mem _ hx)
    have hocc1 : lookupAssoc p (writeManaged st q cq ⟨baseOf q, pkg, ver, false⟩).files
        = some c0 := by
      rw [writeManaged_lookup_ne st q cq p _ hpq]
      exact hocc
    have hunm1 : isManagedBy
        (loadMarkerAt (writeManaged st q cq ⟨baseOf q, pkg, ver, false⟩) (dirOf p))
        (baseOf p) pkg = false := by
      by_cases hd : dirOf p = dirOf q
      · rw [hd, loadMarkerAt_writeManaged_self, isManagedBy_upsert_ne]
        · rw [← hd]
          exact hunm
        · intro hbb
          exact hpq (goodPath_inj hgp (hg q (by simp)) hd hbb)
      · rw [loadMarkerAt_writeManaged_ne st q cq _ _ hd]
        exact hunm
    obtain ⟨stP, ow, a, hfull, hpre⟩ :=
      ih (writeManaged st q cq ⟨baseOf q, pkg, ver, false⟩)
        (by rw [List.map_cons, List.nodup_cons] at hnd; exact hnd.2)
        (fun x hx => hg x (by rw [List.map_cons]; exact List.mem_cons_of_mem _ hx))
        hf1 (fun hh => hp (by rw [List.map_cons]; exact List.mem_cons_of_mem _ hh))
        hgp hocc1 hunm1
    refine ⟨stP, ow, q :: a, ?_, ?_⟩
    · rw [List.cons_append]
      rw [extractWalk_cons_ok pkg ver false st q cq (t ++ (p, src) :: post) _ .added
        (processFile_add pkg ver false st q cq hqf) stP (.error (.fileConflict p ow)) hfull]
      rfl
    · rw [extractWalk_cons_ok pkg ver false st q cq t _ .added
        (processFile_add pkg ver false st q cq hqf) stP (.ok (a, [], [])) hpre]
      rfl

theorem walkForcePrefix (pkg ver : String) (p src c0 : String)
    (post : List (String × String)) (hgp : goodPath p)
    (hppost : p ∉ post.map Prod.fst)
    (hgpost : ∀ q ∈ post.map Prod.fst, goodPath q)
    (pre : List (String × String)) :
    ∀ st : OutState,
    (pre.map Prod.fst).Nodup →
    (∀ q ∈ pre.map Prod.fst, goodPath q) →
    (∀ q ∈ pre.map Prod.fst, lookupAssoc q st.files = none) →
    p ∉ pre.map Prod.fst →
    lookupAssoc p st.files = some c0 →
    isManagedBy (loadMarkerAt st (dirOf p)) (baseOf p) pkg = false →
    ∃ stW a m sk, extractWalk pkg ver true st (pre ++ (p, src) :: post)
        = (stW, .ok (a, m, sk)) ∧
      lookupAssoc p stW.files = some src ∧
      (⟨baseOf p, pkg, ver, true⟩ : ManagedFileMetadata) ∈ loadMarkerAt stW (dirOf p) := by
  induction pre with
  | nil =>
    intro st _ _ _ _ hocc hunm
    have hforce := processFile_force pkg ver st p src c0 hocc hunm
    have hlk2 : lookupAssoc p
        (writeManaged st p src ⟨baseOf p, pkg, ver, true⟩).files = some src :=
      writeManaged_lookup_self st p src _
    have hmem2 : (⟨baseOf p, pkg, ver, true⟩ : ManagedFileMetadata) ∈
        loadMarkerAt (writeManaged st p src ⟨baseOf p, pkg, ver, true⟩) (dirOf p) := by
      rw [loadMarkerAt_writeManaged_self]
      exact upsertEntry_mem _ _
    obtain ⟨stW, a, m, sk, hw⟩ :=
      extractWalk_true_ok pkg ver post (writeManaged st p src ⟨baseOf p, pkg, ver, true⟩)
    have hkeep := walkKeepsEntry pkg ver true p src ⟨baseOf p, pkg, ver, true⟩ rfl post
      (writeManaged st p src ⟨baseOf p, pkg, ver, true⟩) stW (.ok (a, m, sk)) hw
      hppost hgp hgpost hlk2 hmem2
    obtain ⟨a2, m2, sk2, hcomb⟩ := combineResult_ok p .addedForce a m sk
    refine ⟨stW, a2, m2, sk2, ?_, hkeep.1, hkeep.2⟩
    rw [List.nil_append,
      extractWalk_cons_ok pkg ver true st p src post _ .addedForce hforce stW
        (.ok (a, m, sk)) hw, hcomb]
  | cons head t ih =>
    intro st hnd hg hf hp hocc hunm
    obtain ⟨q, cq⟩ := head
    have hqf : lookupAssoc q st.files = none := hf q (by simp)
    have hpq : p ≠ q := fun hh => hp (by simp [hh])
    have hqt : q ∉ t.map Prod.fst := by
      rw [List.map_cons, List.nodup_cons] at hnd
      exact hnd.1
    have hf1 : ∀ x ∈ t.map Prod.fst,
        lookupAssoc x (writeManaged st q cq ⟨baseOf q, pkg, ver, false⟩).files = none := by
      intro x hx
      rw [writeManaged_lookup_ne st q cq x _ (fun hh => hqt (hh ▸ hx))]
      exact hf x (by rw [List.map_cons]; exact List.mem_cons_of_mem _ hx)
    have hocc1 : lookupAssoc p (writeManaged st q cq ⟨baseOf q, pkg, ver, false⟩).files
        = some c0 := by
      rw [writeManaged_lookup_ne st q cq p _ hpq]
      exact hocc
    have hunm1 : isManagedBy
        (loadMarkerAt (writeManaged st q cq ⟨baseOf q, pkg, ver, false⟩) (dirOf p))
        (baseOf p) pkg = false := by
      by_cases hd : dirOf p = dirOf q
      · rw [hd, loadMarkerAt_writeManaged_self, isManagedBy_upsert_ne]
        · rw [← hd]
          exact hunm
        · intro hbb
          exact hpq (goodPath_inj hgp (hg q (by simp)) hd hbb)
      · rw [loadMarkerAt_writeManaged_ne st q cq _ _ hd]
        exact hunm
    obtain ⟨stW, a, m, sk, hfull, hlkW, hmemW⟩ :=
      ih (writeManaged st q cq ⟨baseOf q, pkg, ver, false⟩)
        (by rw [List.map_cons, List.nodup_cons] at hnd; exact hnd.2)
        (fun x hx => hg x (by rw [List.map_cons]; exact List.mem_cons_of_mem _ hx))
        hf1 (fun hh => hp (by rw [List.map_cons]; exact List.mem_cons_of_mem _ hh))
        hocc1 hunm1
    refine ⟨stW, q :: a, m, sk, ?_, hlkW, hmemW⟩
    rw [List.cons_append,
      extractWalk_cons_ok pkg ver true st q cq (t ++ (p, src) :: post) _ .added
        (processFile_add pkg ver true st q cq hqf) stW (.ok (a, m, sk)) hfull]
    rfl

/-- C1: for a candidate destination path occupied by a pre-existing file not
managed by the extracting package, extract with allowConflicts false fails
with a FileConflict error naming that path, and the resulting state is the
state reached after the conflict-free prefix of the walk alone: neither the
conflicting candidate nor any later candidate is written.  With
allowConflicts true the run succeeds, the destination content equals the
package source content, and the marker of the destination directory holds
the entry for the path with force = true.  The hypotheses state the
scenario: candidates are well-formed distinct relative paths, the
candidates before the conflicting one land on fresh destinations, and the
conflicting destination is occupied but unmanaged. -/
theorem C1_conflict_policy (pkg ver : String) (st : OutState) (p src : String)
    (pre post : List (String × String))
    (hgp : goodPath p)
    (hgpre : ∀ q ∈ pre.map Prod.fst, goodPath q)
    (hgpost : ∀ q ∈ post.map Prod.fst, goodPath q)
    (hnd : (pre.map Prod.fst).Nodup)
    (hppre : p ∉ pre.map Prod.fst)
    (hppost : p ∉ post.map Prod.fst)
    (hfresh : ∀ q ∈ pre.map Prod.fst, lookupAssoc q st.files = none)
    (c0 : String) (hocc : lookupAssoc p st.files = some c0)
    (hunm : isManagedBy (loadMarkerAt st (dirOf p)) (baseOf p) pkg = false) :
    (∃ ow, extract pkg ver false st (pre ++ (p, src) :: post) =
      ((extractWalk pkg ver false st pre).1, .error (.fileConflict p ow))) ∧
    (∃ stF res, extract pkg ver true st (pre ++ (p, src) :: post) = (stF, .ok res) ∧
      lookupAssoc p stF.files = some src ∧
      (⟨baseOf p, pkg, ver, true⟩ : ManagedFileMetadata) ∈ loadMarkerAt stF (dirOf p)) := by
  constructor
  · obtain ⟨stP, ow, a, hfull, hpre⟩ :=
      walkConflictPrefix pkg ver p src c0 post pre st hnd hgpre hfresh hppre hgp hocc hunm
    refine ⟨ow, ?_⟩
    rw [extract_walk_err pkg ver false st _ stP _ hfull, hpre]
  · obtain ⟨stW, a, m, sk, hfull, hlkW, hmemW⟩ :=
      walkForcePrefix pkg ver p src c0 post hgp hppost hgpost pre st hnd hgpre hfresh
        hppre hocc hunm
    have hpcp : p ∈ (pre ++ (p, src) :: post).map Prod.fst := by
      rw [List.mem_map]
      exact ⟨(p, src), List.mem_append_right _ (List.mem_cons_self _ _), rfl⟩
    refine ⟨(orphanPass pkg ((pre ++ (p, src) :: post).map Prod.fst) stW).1,
      ⟨a, m, (orphanPass pkg ((pre ++ (p, src) :: post).map Prod.fst) stW).2, sk⟩,
      extract_walk_ok pkg ver true st _ stW a m sk hfull, ?_, ?_⟩
    · rw [orphanPass_lookup pkg _ stW p hpcp]
      exact hlkW
    · exact orphanPass_keeps_entry pkg _ stW p _ hgp hpcp rfl hmemW

/-- C1 witness: the conflict scenario of the repo test suite, a single
candidate config.md whose destination holds unmanaged content. -/
theorem C1_witness :
    (∃ ow, extract "test-conflict-package" "1.0.0" false
      ⟨[("config.md", "existing unmanaged content")], []⟩
      ([] ++ ("config.md", "# Config") :: []) =
      ((extractWalk "test-conflict-package" "1.0.0" false
        ⟨[("config.md", "existing unmanaged content")], []⟩ []).1,
        .error (.fileConflict "config.md" ow))) ∧
    (∃ stF res, extract "test-conflict-package" "1.0.0" true
      ⟨[("config.md", "existing unmanaged content")], []⟩
      ([] ++ ("config.md", "# Config") :: []) = (stF, .ok res) ∧
      lookupAssoc "config.md" stF.files = some "# Config" ∧
      (⟨baseOf "config.md", "test-conflict-package", "1.0.0", true⟩ : ManagedFileMetadata)
        ∈ loadMarkerAt stF (dirOf "config.md")) :=
  C1_conflict_policy "test-conflict-package" "1.0.0"
    ⟨[("config.md", "existing unmanaged content")], []⟩ "config.md" "# Config" [] []
    (by decide) (by decide) (by decide) (by decide) (by decide) (by decide) (by decide)
    "existing unmanaged content" (by decide) (by decide)

/-- C2: if extracting a package into an output state succeeds, extracting
the same package with the same candidate files again returns the same state
with empty added, modified and deleted lists (every candidate is a skip),
and a check run on the state after either extraction reports ok.  The
hypotheses state that the candidate paths are well-formed and distinct, as
a filesystem walk produces them. -/
theorem C2_idempotent_extract (pkg ver : String) (ac : Bool) (st st1 : OutState)
    (cands : List (String × String)) (res1 : ConsumerResult)
    (hg : ∀ pc ∈ cands, goodPath pc.1)
    (hnd : (cands.map Prod.fst).Nodup)
    (h1 : extract pkg ver ac st cands = (st1, .ok res1)) :
    extract pkg ver ac st1 cands = (st1, .ok ⟨[], [], [], cands.map Prod.fst⟩) ∧
    (check pkg st1 cands).ok = true := by
  cases hw : extractWalk pkg ver ac st cands with
  | mk stW r =>
    cases r with
    | error e =>
      rw [extract_walk_err pkg ver ac st cands stW e hw] at h1
      exact absurd h1 (by simp)
    | ok tr =>
      obtain ⟨a, m, sk⟩ := tr
      rw [extract_walk_ok pkg ver ac st cands stW a m sk hw] at h1
      injection h1 with h11 _
      have hgq : ∀ q ∈ cands.map Prod.fst, goodPath q := by
        intro q hq
        rw [List.mem_map] at hq
        obtain ⟨pc, hpc, hqe⟩ := hq
        rw [← hqe]
        exact hg pc hpc
      have hsyncW := walkEstablishesSync pkg ver ac cands st stW a m sk hw hnd hgq
      have hsync1 : ∀ pc ∈ cands, lookupAssoc pc.1 st1.files = some pc.2 ∧
          isManagedBy (loadMarkerAt st1 (dirOf pc.1)) (baseOf pc.1) pkg = true := by
        intro pc hpc
        have hcp : pc.1 ∈ cands.map Prod.fst := List.mem_map_of_mem _ hpc
        rw [← h11]
        exact ⟨by rw [orphanPass_lookup pkg _ stW pc.1 hcp]; exact (hsyncW pc hpc).1,
          orphanPass_keeps_managed pkg _ stW pc.1 (hg pc hpc) hcp (hsyncW pc hpc).2⟩
      have hinv : ∀ dm ∈ st1.markers, ∀ e ∈ dm.2, e.packageName = pkg →
          (cands.map Prod.fst).contains (joinRel dm.1 e.path) = true := by
        rw [← h11]
        exact orphanPass_inv pkg (cands.map Prod.fst) stW
      constructor
      · rw [extract_walk_ok pkg ver ac st1 cands st1 [] [] (cands.map Prod.fst)
          (walkAllSynced pkg ver ac cands st1 hsync1),
          orphanPass_id pkg (cands.map Prod.fst) st1 hinv]
      · rw [checkAllSynced pkg st1 cands hsync1]

/-- C2 witness: a one-file package extracted into an empty output state;
the second extraction returns empty added and modified lists and check
reports ok. -/
theorem C2_witness :
    extract "test-update-package" "1.0.0" false
      ⟨[("docs/guide.md", "# Guide v1")],
        [("docs", [⟨"guide.md", "test-update-package", "1.0.0", false⟩])]⟩
      [("docs/guide.md", "# Guide v1")] =
      (⟨[("docs/guide.md", "# Guide v1")],
        [("docs", [⟨"guide.md", "test-update-package", "1.0.0", false⟩])]⟩,
        .ok ⟨[], [], [], ["docs/guide.md"]⟩) ∧
    (check "test-update-package"
      ⟨[("docs/guide.md", "# Guide v1")],
        [("docs", [⟨"guide.md", "test-update-package", "1.0.0", false⟩])]⟩
      [("docs/guide.md", "# Guide v1")]).ok = true :=
  C2_idempotent_extract "test-update-package" "1.0.0" false ⟨[], []⟩
    ⟨[("docs/guide.md", "# Guide v1")],
      [("docs", [⟨"guide.md", "test-update-package", "1.0.0", false⟩])]⟩
    [("docs/guide.md", "# Guide v1")] ⟨["docs/guide.md"], [], [], []⟩
    (by decide) (by decide) (by decide)

end Npmdata
